import Mathlib

/-!
Verification of the Game Library Data Store (src/main.py).

Python strings are embedded as `List Char`; every string primitive the
source uses (`strip`, `replace(".0","")`, `split("/")`, `isdigit`,
membership of `"/"`) is given an executable Lean counterpart, and each
operation of the store (`DateFormatter`, `toggle_sort`,
`move_wish_to_library`, `load_csv`, the score editor's save, the quick
log append) is translated directly from the source.
-/

/-- The whitespace characters trimmed by `str.strip()` (ASCII subset,
which is all the data in this store can contain). -/
def isWS (c : Char) : Bool :=
  decide (c.toNat = 32 ∨ c.toNat = 9 ∨ c.toNat = 10 ∨ c.toNat = 13 ∨
          c.toNat = 11 ∨ c.toNat = 12)

/-- `str.isdigit` on a single character: `'0'..'9'`. -/
def isDigitCh (c : Char) : Bool :=
  decide (48 ≤ c.toNat ∧ c.toNat ≤ 57)

/-- Python `s.strip()`: drop leading and trailing whitespace. -/
def strip (s : List Char) : List Char :=
  ((s.dropWhile isWS).reverse.dropWhile isWS).reverse

/-- Python `s.replace(".0", "")`: left-to-right, non-overlapping removal
of every occurrence of the two-character substring `".0"`. -/
def replaceDotZero : List Char → List Char
  | [] => []
  | [c] => [c]
  | c :: d :: rest =>
    if c = '.' ∧ d = '0' then replaceDotZero rest
    else c :: replaceDotZero (d :: rest)

/-- Python `".0" in s`: does `".0"` occur as a substring? -/
def hasDotZero : List Char → Bool
  | [] => false
  | [_] => false
  | c :: d :: rest => (c = '.' && d = '0') || hasDotZero (d :: rest)

/-- `s.all isdigit` (note: used only under a length check, so the
Python `"".isdigit() == False` corner never matters). -/
def allDigits (s : List Char) : Bool := s.all isDigitCh

/-- The f-string `f"{s[0:4]}/{s[4:6]}/{s[6:8]}"` applied to an
8-character string. -/
def insertSlashes (t : List Char) : List Char :=
  t.take 4 ++ '/' :: ((t.drop 4).take 2 ++ '/' :: t.drop 6)

/-- Python `s.split(sep)` for a single-character separator. -/
def splitOnChar (sep : Char) : List Char → List (List Char)
  | [] => [[]]
  | c :: rest =>
    if c = sep then [] :: splitOnChar sep rest
    else
      match splitOnChar sep rest with
      | [] => [[c]]
      | p :: ps => (c :: p) :: ps

namespace DateFormatter

/-- `DateFormatter.to_display_format` (src/main.py lines 32–49):
empty/whitespace-only input yields `""`; otherwise remove `".0"`
occurrences and trim; return that if it contains `/`; if it is exactly
8 digits insert `/` separators; otherwise return it unchanged. -/
def to_display_format (s : List Char) : List Char :=
  if strip s = [] then []
  else
    let t := strip (replaceDotZero s)
    if '/' ∈ t then t
    else if t.length = 8 ∧ allDigits t = true then insertSlashes t
    else t

/-- `DateFormatter.to_storage_format` (src/main.py lines 51–67): same
shape as `to_display_format` but WITHOUT the `".0"` removal. -/
def to_storage_format (s : List Char) : List Char :=
  if strip s = [] then []
  else
    let t := strip s
    if '/' ∈ t then t
    else if t.length = 8 ∧ allDigits t = true then insertSlashes t
    else t

/-- `DateFormatter.parse_from_fields` (src/main.py lines 69–82). -/
def parse_from_fields (year month day : List Char) : List Char :=
  let y := if strip year = [] then ['0', '0', '0', '0'] else strip year
  let m0 := if strip month = [] then ['0', '0'] else strip month
  let d0 := if strip day = [] then ['0', '0'] else strip day
  let m := if m0 ≠ ['0', '0'] ∧ m0.length = 1 then '0' :: m0 else m0
  let d := if d0 ≠ ['0', '0'] ∧ d0.length = 1 then '0' :: d0 else d0
  y ++ '/' :: m ++ '/' :: d

/-- `DateFormatter.split_to_fields` (src/main.py lines 84–103). -/
def split_to_fields (s : List Char) : List Char × List Char × List Char :=
  if strip s = [] then ([], [], [])
  else
    let t := to_display_format s
    if '/' ∈ t then
      match splitOnChar '/' t with
      | [y, m, d] =>
        (y, (if m = ['0', '0'] then [] else m), (if d = ['0', '0'] then [] else d))
      | _ => (t, [], [])
    else (t, [], [])

/-- Modelled from the spec's words for claim comparison only (the spec
says `to_display` strips *a trailing* `.0`): remove one trailing `".0"`
if present, then proceed with the same rule set as the code. -/
def spec_to_display (s : List Char) : List Char :=
  if strip s = [] then []
  else
    let s1 := if s.length ≥ 2 ∧ s.drop (s.length - 2) = ['.', '0']
              then s.take (s.length - 2) else s
    let t := strip s1
    if '/' ∈ t then t
    else if t.length = 8 ∧ allDigits t = true then insertSlashes t
    else t

end DateFormatter

/-- Code-point lexicographic `≤` on strings, as Python compares `str`
values (this is the sort key `pandas.sort_values` uses on the `시작`
column, whose entries are all strings after `fillna("")`). -/
def lexLe : List Char → List Char → Bool
  | [], _ => true
  | _ :: _, [] => false
  | a :: as, b :: bs =>
    if a.toNat < b.toNat then true
    else if b.toNat < a.toNat then false
    else lexLe as bs

/-- Insertion step of the sorting model. -/
def insertLe (le : α → α → Bool) (a : α) : List α → List α
  | [] => [a]
  | b :: bs => if le a b then a :: b :: bs else b :: insertLe le a bs

/-- The sorting model for `DataFrame.sort_values`: a comparison sort by
the given boolean `≤`. -/
def sortLe (le : α → α → Bool) : List α → List α
  | [] => []
  | a :: as => insertLe le a (sortLe le as)

/-- One row of the played-games collection (`evaluations_df`): the
string columns `게임명, 장르, 시작, 마무리, 분류` and the numeric score
columns `만족도, 몰입감, 게임성, 그래픽, 사운드, 완성도, 총점`. -/
structure GameRecord where
  title : List Char
  genre : List Char
  start : List Char
  finish : List Char
  status : List Char
  satisfaction : ℚ
  immersion : ℚ
  gameplay : ℚ
  graphics : ℚ
  sound : ℚ
  completeness : ℚ
  total : ℚ
deriving DecidableEq

/-- One row of the wishlist collection (`wishlist_df`): columns
`제목, 장르, 가격현황, 할인률`. -/
structure WishItem where
  title : List Char
  genre : List Char
  price : List Char
  discount : List Char
deriving DecidableEq

/-- The in-memory state of `GameApp` relevant to the store: the sort
flag and the two collections. -/
structure AppState where
  sortDescending : Bool
  evaluations : List GameRecord
  wishlist : List WishItem
deriving DecidableEq

/-- Ascending comparison on the `시작` (start date) column. -/
def ascRecLe (a b : GameRecord) : Bool := lexLe a.start b.start

/-- Descending comparison on the `시작` (start date) column. -/
def descRecLe (a b : GameRecord) : Bool := lexLe b.start a.start

/-- `GameApp.toggle_sort` (src/main.py lines 437–446): flip the flag,
then sort `evaluations_df` by `시작` with `ascending = not
sort_descending` (the freshly flipped flag) and `reset_index`; the
list model makes the index reassignment implicit.  `na_position='last'`
is vacuous because every entry of the column is a string (missing
values were already replaced by `""` in `load_csv`). -/
def toggle_sort (st : AppState) : AppState :=
  let desc := !st.sortDescending
  { st with
    sortDescending := desc
    evaluations := sortLe (if desc then descRecLe else ascRecLe) st.evaluations }

/-- `strftime("%Y/%m/%d")`: zero-padded 4-digit year and 2-digit month
and day (faithful for `y < 10000`, `m < 100`, `d < 100`, which every
calendar date satisfies). -/
def strftimeYMD (y m d : Nat) : List Char :=
  [Nat.digitChar (y / 1000 % 10), Nat.digitChar (y / 100 % 10),
   Nat.digitChar (y / 10 % 10), Nat.digitChar (y % 10), '/',
   Nat.digitChar (m / 10 % 10), Nat.digitChar (m % 10), '/',
   Nat.digitChar (d / 10 % 10), Nat.digitChar (d % 10)]

/-- The fresh played-games row built by `move_wish_to_library`
(src/main.py lines 913–926). -/
def newLibraryRecord (item : WishItem) (today : List Char) : GameRecord :=
  { title := item.title
    genre := item.genre
    start := today
    finish := []
    status := "대기중".data
    satisfaction := 0
    immersion := 0
    gameplay := 0
    graphics := 0
    sound := 0
    completeness := 0
    total := 0 }

/-- `GameApp.move_wish_to_library` (src/main.py lines 904–936): read the
wishlist row at `i`, append a defaulted `GameRecord` to
`evaluations_df` (`pd.concat` with `ignore_index=True`), then
`drop(i).reset_index(drop=True)` on the wishlist — in the list model an
append and an `eraseIdx`. -/
def move_wish_to_library (st : AppState) (i : Nat) (h : i < st.wishlist.length)
    (today : List Char) : AppState :=
  let item := st.wishlist.get ⟨i, h⟩
  { st with
    evaluations := st.evaluations ++ [newLibraryRecord item today]
    wishlist := st.wishlist.eraseIdx i }

/-- A delimited file as `pandas.read_csv(dtype=str)` parses it: a header
and rows whose fields are text, `none` marking a missing field (NaN). -/
structure RawTable where
  header : List String
  rows : List (List (Option String))

/-- A loaded collection after `fillna("")`: all fields are plain text. -/
structure Table where
  header : List String
  rows : List (List String)

/-- What the filesystem-plus-parser hands `load_csv` for a path: the
file is absent, it fails to parse, or it parses to a raw table (the
parsing itself is `pandas`, an external library, and is left
abstract). -/
inductive ReadOutcome where
  | missing : ReadOutcome
  | parseFailed : ReadOutcome
  | parsed : RawTable → ReadOutcome

/-- `GameApp.load_csv` (src/main.py lines 205–216): missing file →
empty collection, no error dialog; parse failure → error dialog
(`messagebox.showerror`, the `Bool` component) and an empty collection;
success → `fillna("")` over the parsed rows.  Result: the collection
and whether an error was reported. -/
def load_csv : ReadOutcome → Table × Bool
  | .missing => (⟨[], []⟩, false)
  | .parseFailed => (⟨[], []⟩, true)
  | .parsed t => (⟨t.header, t.rows.map (List.map (fun v => v.getD ""))⟩, false)

/-- Round half to even at integer precision over exact rationals, the
convention of Python's builtin `round`. -/
def roundHalfEven (q : ℚ) : ℤ :=
  let f := ⌊q⌋
  let r := q - f
  if r < 1 / 2 then f
  else if 1 / 2 < r then f + 1
  else if f % 2 = 0 then f else f + 1

/-- Python `round(x, 1)` over exact rationals. -/
def pyRound1 (q : ℚ) : ℚ := (roundHalfEven (10 * q) : ℚ) / 10

/-- `save_scores` inside `GameApp.open_evaluation_editor` (src/main.py
lines 729–741): each slider value is rounded to one decimal and stored,
their running sum is divided by 6 and rounded to one decimal to give
the stored `총점`. -/
def save_scores (raw : List ℚ) : List ℚ × ℚ :=
  let stored := raw.map pyRound1
  (stored, pyRound1 (stored.sum / 6))

/-- `GameApp.add_quick_log` (src/main.py lines 662–678) restricted to
its file effect: strip the entry text; if nothing remains, do nothing
(in particular no file is created); otherwise append the single line
`"[" + timestamp + "] " + text + "\n"` to the game's log file,
creating it if absent (`open(..., "a")`).  The log file is `none` when
absent and `some content` otherwise. -/
def add_quick_log (logFile : Option (List Char)) (stamp text : List Char) :
    Option (List Char) :=
  let t := strip text
  if t = [] then logFile
  else some (logFile.getD [] ++ ('[' :: stamp ++ ']' :: ' ' :: t ++ ['\n']))

theorem dropWhile_eq_self_of (p : Char → Bool) (l : List Char)
    (h : ∀ c ∈ l, p c = false) : l.dropWhile p = l := by
  cases l with
  | nil => rfl
  | cons a as => simp [List.dropWhile_cons, h a (by simp)]

theorem strip_eq_self {s : List Char} (h : ∀ c ∈ s, isWS c = false) :
    strip s = s := by
  unfold strip
  rw [dropWhile_eq_self_of isWS s h,
      dropWhile_eq_self_of isWS s.reverse (by simpa using h),
      List.reverse_reverse]

theorem all_ws_of_strip_eq_nil {s : List Char} (h : strip s = []) :
    ∀ c ∈ s, isWS c = true := by
  unfold strip at h
  rw [List.reverse_eq_nil_iff, List.dropWhile_eq_nil_iff] at h
  intro c hc
  rcases (List.takeWhile_append_dropWhile (p := isWS) (l := s)) ▸ hc |>
      List.mem_append.mp with h1 | h2
  · exact List.mem_takeWhile_imp h1
  · exact h c ((List.mem_reverse).mpr h2)

theorem replaceDotZero_eq_self : ∀ {s : List Char}, hasDotZero s = false →
    replaceDotZero s = s
  | [], _ => rfl
  | [_], _ => rfl
  | c :: d :: rest, h => by
    rw [hasDotZero] at h
    simp only [Bool.or_eq_false_iff, Bool.and_eq_false_iff] at h
    rw [replaceDotZero, if_neg, replaceDotZero_eq_self h.2]
    intro hcd
    rcases h.1 with h1 | h1 <;> simp [hcd.1, hcd.2] at h1

theorem hasDotZero_eq_false_of_no_dot : ∀ {s : List Char}, '.' ∉ s →
    hasDotZero s = false
  | [], _ => rfl
  | [_], _ => rfl
  | c :: d :: rest, h => by
    rw [hasDotZero]
    have hc : c ≠ '.' := fun hh => h (hh ▸ List.mem_cons_self _ _)
    have hrest : '.' ∉ d :: rest := fun hh => h (List.mem_cons_of_mem _ hh)
    simp [hasDotZero_eq_false_of_no_dot hrest,
          Bool.and_eq_false_iff, (by simpa [eq_comm] using hc : ¬c = '.')]

theorem splitOnChar_no_sep {sep : Char} : ∀ {a : List Char}, sep ∉ a →
    splitOnChar sep a = [a]
  | [], _ => rfl
  | c :: a', h => by
    have hc : ¬c = sep := fun hh => h (hh ▸ List.mem_cons_self _ _)
    have ha : sep ∉ a' := fun hh => h (List.mem_cons_of_mem _ hh)
    rw [splitOnChar, if_neg hc, splitOnChar_no_sep ha]

theorem splitOnChar_append {sep : Char} :
    ∀ {a : List Char}, sep ∉ a → ∀ (rest : List Char),
      splitOnChar sep (a ++ sep :: rest) = a :: splitOnChar sep rest
  | [], _, rest => by simp [splitOnChar]
  | c :: a', h, rest => by
    have hc : ¬c = sep := fun hh => h (hh ▸ List.mem_cons_self _ _)
    have ha : sep ∉ a' := fun hh => h (List.mem_cons_of_mem _ hh)
    rw [List.cons_append, splitOnChar, if_neg hc, splitOnChar_append ha rest]

theorem mem_insertSlashes {c : Char} {t : List Char}
    (h : c ∈ insertSlashes t) : c ∈ t ∨ c = '/' := by
  unfold insertSlashes at h
  simp only [List.mem_append, List.mem_cons] at h
  rcases h with h | h | h | h | h
  · exact Or.inl (List.mem_of_mem_take h)
  · exact Or.inr h
  · exact Or.inl (List.mem_of_mem_drop (List.mem_of_mem_take h))
  · exact Or.inr h
  · exact Or.inl (List.mem_of_mem_drop h)

theorem not_ws_of_digit {c : Char} (h : isDigitCh c = true) : isWS c = false := by
  simp only [isDigitCh, decide_eq_true_eq] at h
  simp only [isWS, decide_eq_false_iff_not]
  omega

theorem ne_dot_of_digit {c : Char} (h : isDigitCh c = true) : c ≠ '.' := by
  intro hc
  subst hc
  exact absurd h (by decide)

theorem ne_slash_of_digit {c : Char} (h : isDigitCh c = true) : c ≠ '/' := by
  intro hc
  subst hc
  exact absurd h (by decide)

theorem allDigits_mem {s : List Char} (h : allDigits s = true) :
    ∀ c ∈ s, isDigitCh c = true := by
  simpa [allDigits, List.all_eq_true] using h

theorem perm_insertLe (le : α → α → Bool) (a : α) :
    ∀ l : List α, (insertLe le a l).Perm (a :: l)
  | [] => List.Perm.refl _
  | b :: bs => by
    rw [insertLe]
    split
    · exact List.Perm.refl _
    · exact ((perm_insertLe le a bs).cons b).trans (List.Perm.swap a b bs)

theorem perm_sortLe (le : α → α → Bool) :
    ∀ l : List α, (sortLe le l).Perm l
  | [] => List.Perm.refl _
  | a :: as =>
    (perm_insertLe le a (sortLe le as)).trans ((perm_sortLe le as).cons a)

theorem mem_insertLe {le : α → α → Bool} {a c : α} {l : List α}
    (h : c ∈ insertLe le a l) : c = a ∨ c ∈ l := by
  have := (perm_insertLe le a l).mem_iff.mp h
  simpa using this

theorem pairwise_insertLe {le : α → α → Bool}
    (total : ∀ x y, le x y || le y x)
    (trans : ∀ x y z, le x y = true → le y z = true → le x z = true)
    (a : α) : ∀ {l : List α}, l.Pairwise (fun x y => le x y = true) →
      (insertLe le a l).Pairwise (fun x y => le x y = true)
  | [], _ => by simp [insertLe]
  | b :: bs, h => by
    rw [insertLe]
    rcases List.pairwise_cons.mp h with ⟨hb, hbs⟩
    split
    · rename_i hab
      refine List.pairwise_cons.mpr ⟨?_, h⟩
      intro c hc
      rcases hc with _ | hc
      · exact hab
      · exact trans a b c hab (hb c (by assumption))
    · rename_i hab
      have hba : le b a = true := by
        rcases Bool.or_eq_true_iff.mp (total a b) with h1 | h1
        · exact absurd h1 hab
        · exact h1
      refine List.pairwise_cons.mpr ⟨?_, pairwise_insertLe total trans a hbs⟩
      intro c hc
      rcases mem_insertLe hc with rfl | hc
      · exact hba
      · exact hb c hc

theorem pairwise_sortLe {le : α → α → Bool}
    (total : ∀ x y, le x y || le y x)
    (trans : ∀ x y z, le x y = true → le y z = true → le x z = true) :
    ∀ l : List α, (sortLe le l).Pairwise (fun x y => le x y = true)
  | [] => List.Pairwise.nil
  | a :: as => pairwise_insertLe total trans a (pairwise_sortLe total trans as)

theorem lexLe_total : ∀ a b : List Char, lexLe a b || lexLe b a
  | [], b => by simp [lexLe]
  | _ :: _, [] => by simp [lexLe]
  | a :: as, b :: bs => by
    by_cases h1 : a.toNat < b.toNat
    · simp [lexLe, h1]
    · by_cases h2 : b.toNat < a.toNat
      · simp [lexLe, h1, h2]
      · simpa [lexLe, h1, h2] using lexLe_total as bs

theorem lexLe_trans : ∀ a b c : List Char,
    lexLe a b = true → lexLe b c = true → lexLe a c = true
  | [], _, _, _, _ => by simp [lexLe]
  | _ :: _, [], _, hab, _ => by simp [lexLe] at hab
  | _ :: _, _ :: _, [], _, hbc => by simp [lexLe] at hbc
  | a :: as, b :: bs, c :: cs, hab, hbc => by
    rw [lexLe] at hab hbc ⊢
    rcases Nat.lt_trichotomy a.toNat b.toNat with h1 | h1 | h1
    · rcases Nat.lt_trichotomy b.toNat c.toNat with h2 | h2 | h2
      · rw [if_pos (by omega)]
      · rw [if_pos (by omega)]
      · rw [if_neg (by omega), if_pos h2] at hbc
        exact absurd hbc (by simp)
    · rw [if_neg (by omega), if_neg (by omega)] at hab
      rcases Nat.lt_trichotomy b.toNat c.toNat with h2 | h2 | h2
      · rw [if_pos (by omega)]
      · rw [if_neg (by omega), if_neg (by omega)] at hbc
        rw [if_neg (by omega), if_neg (by omega)]
        exact lexLe_trans as bs cs hab hbc
      · rw [if_neg (by omega), if_pos h2] at hbc
        exact absurd hbc (by simp)
    · rw [if_neg (by omega), if_pos h1] at hab
      exact absurd hab (by simp)

theorem lexLe_nil_right {x : List Char} (h : lexLe x [] = true) : x = [] := by
  cases x with
  | nil => rfl
  | cons c cs => simp [lexLe] at h

theorem ascRecLe_total : ∀ a b : GameRecord, ascRecLe a b || ascRecLe b a :=
  fun a b => lexLe_total a.start b.start

theorem ascRecLe_trans : ∀ a b c : GameRecord,
    ascRecLe a b = true → ascRecLe b c = true → ascRecLe a c = true :=
  fun a b c hab hbc => lexLe_trans a.start b.start c.start hab hbc

theorem descRecLe_total : ∀ a b : GameRecord, descRecLe a b || descRecLe b a :=
  fun a b => (Bool.or_comm _ _).trans (lexLe_total a.start b.start) ▸
    lexLe_total b.start a.start

theorem descRecLe_trans : ∀ a b c : GameRecord,
    descRecLe a b = true → descRecLe b c = true → descRecLe a c = true :=
  fun a b c hab hbc => lexLe_trans c.start b.start a.start hbc hab

theorem toggle_sort_flag (st : AppState) :
    (toggle_sort st).sortDescending = !st.sortDescending := rfl

theorem toggle_sort_rows (st : AppState) :
    (toggle_sort st).evaluations =
      sortLe (if !st.sortDescending then descRecLe else ascRecLe)
        st.evaluations := rfl

theorem toggle_sort_wishlist (st : AppState) :
    (toggle_sort st).wishlist = st.wishlist := rfl

/-- A played-games row with only the fields that matter to sorting. -/
def mkRow (t s : List Char) : GameRecord :=
  ⟨t, [], s, [], [], 0, 0, 0, 0, 0, 0, 0⟩

/-- Concrete state showing the empty-date placement under an ascending
toggle: flag starts `true`, one empty start date, one real one. -/
def exStateC2 : AppState :=
  ⟨true, [mkRow "A".data [], mkRow "B".data "2023/01/01".data], []⟩

/-- Concrete state for the double-toggle counterexample: the rows are
in ascending start-date order, flag starts `true`. -/
def exStateC7 : AppState :=
  ⟨true, [mkRow "Old".data "2022/01/01".data,
          mkRow "New".data "2023/01/01".data], []⟩

/-- Concrete state used by the C2 witness (flag `false`, so a toggle
sorts descending). -/
def exStateC2w : AppState :=
  ⟨false, [mkRow "A".data [], mkRow "B".data "2023/01/01".data,
           mkRow "C".data "2021/05/05".data], []⟩

/-- Concrete state used by the C7 witness. -/
def exStateC7w : AppState :=
  ⟨true, [mkRow "P".data "2020/01/01".data,
          mkRow "Q".data "2024/06/15".data], []⟩

/-- C2 counterexample: starting from the descending flag, one call to
`toggle_sort` sorts ascending, and the row with the EMPTY start date
comes out FIRST (index 0), ahead of a row with a non-empty start date —
so empty start dates are not placed last regardless of direction. -/
theorem toggle_sort_empty_first :
    (toggle_sort exStateC2).sortDescending = false ∧
    (toggle_sort exStateC2).evaluations.map GameRecord.start =
      [[], "2023/01/01".data] := by decide

/-- C2 (amended): `toggle_sort` flips the direction flag and reorders
the played games by code-point-lexicographic comparison of the `시작`
string (which on canonical `YYYY/MM/DD` values is date order),
descending when the new flag is `true` and ascending when it is
`false`; rows with an EMPTY start date sort as the lexicographic
minimum, hence last in descending order but FIRST in ascending order
(the code's `na_position='last'` is vacuous: the column holds `""`
strings, not NaN).  The result is a permutation of the input rows,
reindexed 0..n-1. -/
theorem toggle_sort_order (st : AppState) :
    (toggle_sort st).sortDescending = !st.sortDescending ∧
    (toggle_sort st).evaluations.Perm st.evaluations ∧
    ((toggle_sort st).sortDescending = true →
      (toggle_sort st).evaluations.Pairwise
        (fun a b => lexLe b.start a.start = true)) ∧
    ((toggle_sort st).sortDescending = false →
      (toggle_sort st).evaluations.Pairwise
        (fun a b => lexLe a.start b.start = true)) ∧
    ((toggle_sort st).sortDescending = true →
      (toggle_sort st).evaluations.Pairwise
        (fun a b => a.start = [] → b.start = [])) ∧
    ((toggle_sort st).sortDescending = false →
      (toggle_sort st).evaluations.Pairwise
        (fun a b => b.start = [] → a.start = [])) := by
  have hperm : (toggle_sort st).evaluations.Perm st.evaluations := by
    rw [toggle_sort_rows]
    exact perm_sortLe _ _
  have hdesc : (toggle_sort st).sortDescending = true →
      (toggle_sort st).evaluations.Pairwise
        (fun a b => lexLe b.start a.start = true) := by
    intro hflag
    rw [toggle_sort_flag] at hflag
    rw [toggle_sort_rows, hflag, if_pos rfl]
    exact (pairwise_sortLe descRecLe_total descRecLe_trans st.evaluations).imp
      (fun hab => hab)
  have hasc : (toggle_sort st).sortDescending = false →
      (toggle_sort st).evaluations.Pairwise
        (fun a b => lexLe a.start b.start = true) := by
    intro hflag
    rw [toggle_sort_flag] at hflag
    rw [toggle_sort_rows, hflag, if_neg (by simp)]
    exact (pairwise_sortLe ascRecLe_total ascRecLe_trans st.evaluations).imp
      (fun hab => hab)
  refine ⟨toggle_sort_flag st, hperm, hdesc, hasc, ?_, ?_⟩
  · intro hflag
    exact (hdesc hflag).imp fun hab ha => lexLe_nil_right (by rw [ha] at hab; exact hab)
  · intro hflag
    exact (hasc hflag).imp fun hab hb' => lexLe_nil_right (by rw [hb'] at hab; exact hab)

/-- C2 witness: on a concrete three-row state with the flag initially
`false`, the toggled state has the descending flag and its rows are
pairwise descending. -/
theorem toggle_sort_order_witness :
    (toggle_sort exStateC2w).evaluations.Pairwise
      (fun a b => lexLe b.start a.start = true) :=
  (toggle_sort_order exStateC2w).2.2.1 (by decide)

/-- C7 counterexample: the rows start in ascending order under the
descending flag; after calling `toggle_sort` twice the state differs
from the original — the rows come back sorted descending
(`[New, Old]`), not in their original order (`[Old, New]`). -/
theorem toggle_sort_twice_ne :
    exStateC7.evaluations.map GameRecord.title = ["Old".data, "New".data] ∧
    (toggle_sort (toggle_sort exStateC7)).evaluations.map GameRecord.title =
      ["New".data, "Old".data] ∧
    toggle_sort (toggle_sort exStateC7) ≠ exStateC7 := by decide

/-- C7 (amended): calling `toggle_sort` twice restores the
sort-direction flag to its original value and leaves the played-games
collection a permutation of the original rows sorted by start date in
the direction of that restored flag (indices reassigned 0..n-1); the
original row order is recovered only when the collection was already
in that order, not in general. -/
theorem toggle_sort_twice (st : AppState) :
    (toggle_sort (toggle_sort st)).sortDescending = st.sortDescending ∧
    (toggle_sort (toggle_sort st)).evaluations.Perm st.evaluations ∧
    (st.sortDescending = true →
      (toggle_sort (toggle_sort st)).evaluations.Pairwise
        (fun a b => lexLe b.start a.start = true)) ∧
    (st.sortDescending = false →
      (toggle_sort (toggle_sort st)).evaluations.Pairwise
        (fun a b => lexLe a.start b.start = true)) := by
  have hflag : (toggle_sort (toggle_sort st)).sortDescending =
      st.sortDescending := by
    rw [toggle_sort_flag, toggle_sort_flag, Bool.not_not]
  refine ⟨hflag, ?_, ?_, ?_⟩
  · exact ((toggle_sort_order (toggle_sort st)).2.1).trans
      (toggle_sort_order st).2.1
  · intro h
    exact (toggle_sort_order (toggle_sort st)).2.2.1 (hflag.trans h)
  · intro h
    exact (toggle_sort_order (toggle_sort st)).2.2.2.1 (hflag.trans h)

/-- C7 witness: at a concrete two-row state with the flag `true`, two
toggles restore the flag and leave the rows pairwise descending. -/
theorem toggle_sort_twice_witness :
    (toggle_sort (toggle_sort exStateC7w)).sortDescending = true ∧
    (toggle_sort (toggle_sort exStateC7w)).evaluations.Pairwise
      (fun a b => lexLe b.start a.start = true) :=
  ⟨(toggle_sort_twice exStateC7w).1, (toggle_sort_twice exStateC7w).2.2.1 rfl⟩

theorem count_eraseIdx_get [DecidableEq α] :
    ∀ (l : List α) (i : Nat) (h : i < l.length),
      (l.eraseIdx i).count (l.get ⟨i, h⟩) + 1 = l.count (l.get ⟨i, h⟩)
  | _ :: _, 0, _ => by simp [List.count_cons_self]
  | a :: as, i + 1, h => by
    have h' : i < as.length := by simpa using h
    have ih := count_eraseIdx_get as i h'
    simp only [List.get_cons_succ, List.eraseIdx_cons_succ, List.count_cons] at ih ⊢
    omega

theorem isDigitCh_digitChar (n : Nat) :
    isDigitCh (Nat.digitChar (n % 10)) = true := by
  have h : n % 10 < 10 := Nat.mod_lt _ (by decide)
  generalize n % 10 = k at h
  interval_cases k <;> decide

/-- The canonical date shape of the glossary: `YYYY/MM/DD` with
fixed-width all-digit components. -/
def isCanonicalYMD (s : List Char) : Prop :=
  ∃ y m d, s = y ++ '/' :: m ++ '/' :: d ∧
    y.length = 4 ∧ allDigits y = true ∧
    m.length = 2 ∧ allDigits m = true ∧
    d.length = 2 ∧ allDigits d = true

theorem strftime_canonical (y m d : Nat) :
    isCanonicalYMD (strftimeYMD y m d) := by
  refine ⟨[Nat.digitChar (y / 1000 % 10), Nat.digitChar (y / 100 % 10),
           Nat.digitChar (y / 10 % 10), Nat.digitChar (y % 10)],
          [Nat.digitChar (m / 10 % 10), Nat.digitChar (m % 10)],
          [Nat.digitChar (d / 10 % 10), Nat.digitChar (d % 10)],
          rfl, rfl, ?_, rfl, ?_, rfl, ?_⟩ <;>
    simp [allDigits, isDigitCh_digitChar]

/-- Concrete one-item wishlist for the C1 witness. -/
def exStateC1 : AppState :=
  ⟨true, [mkRow "Owned".data "2020/05/05".data],
   [⟨"Hades".data, "Roguelike".data, "20000".data, "50".data⟩]⟩

theorem exStateC1_lt : 0 < exStateC1.wishlist.length := by decide

/-- C1: `move_wish_to_library i` appends to the played-games collection
exactly one new record whose title and genre are copied from the
wishlist row, whose start date is today's date in canonical
`YYYY/MM/DD` form (`strftime("%Y/%m/%d")`), whose finish date is empty,
whose status is `대기중` (WAITING) and whose six sub-scores and total
are `0.0`; the wishlist loses exactly the row at `i` with the remaining
indices compacted (`drop` + `reset_index`), pre-existing played rows
are untouched (the new collection is the old one with the record
appended), and the moved wishlist row's multiplicity drops by one in
the wishlist while the new record is present in the played collection —
so the moved row lives in exactly one of the two collections. -/
theorem move_wish_to_library_spec (st : AppState) (i : Nat)
    (h : i < st.wishlist.length) (y m d : Nat)
    (hy : y < 10000) (hm : m < 100) (hd : d < 100) :
    (move_wish_to_library st i h (strftimeYMD y m d)).evaluations =
      st.evaluations ++
        [newLibraryRecord (st.wishlist.get ⟨i, h⟩) (strftimeYMD y m d)] ∧
    (move_wish_to_library st i h (strftimeYMD y m d)).evaluations.length =
      st.evaluations.length + 1 ∧
    (move_wish_to_library st i h (strftimeYMD y m d)).evaluations.take
      st.evaluations.length = st.evaluations ∧
    newLibraryRecord (st.wishlist.get ⟨i, h⟩) (strftimeYMD y m d) ∈
      (move_wish_to_library st i h (strftimeYMD y m d)).evaluations ∧
    (newLibraryRecord (st.wishlist.get ⟨i, h⟩) (strftimeYMD y m d)).title =
      (st.wishlist.get ⟨i, h⟩).title ∧
    (newLibraryRecord (st.wishlist.get ⟨i, h⟩) (strftimeYMD y m d)).genre =
      (st.wishlist.get ⟨i, h⟩).genre ∧
    (newLibraryRecord (st.wishlist.get ⟨i, h⟩) (strftimeYMD y m d)).start =
      strftimeYMD y m d ∧
    isCanonicalYMD
      (newLibraryRecord (st.wishlist.get ⟨i, h⟩) (strftimeYMD y m d)).start ∧
    (newLibraryRecord (st.wishlist.get ⟨i, h⟩) (strftimeYMD y m d)).finish = [] ∧
    (newLibraryRecord (st.wishlist.get ⟨i, h⟩) (strftimeYMD y m d)).status =
      "대기중".data ∧
    (newLibraryRecord (st.wishlist.get ⟨i, h⟩) (strftimeYMD y m d)).satisfaction = 0 ∧
    (newLibraryRecord (st.wishlist.get ⟨i, h⟩) (strftimeYMD y m d)).immersion = 0 ∧
    (newLibraryRecord (st.wishlist.get ⟨i, h⟩) (strftimeYMD y m d)).gameplay = 0 ∧
    (newLibraryRecord (st.wishlist.get ⟨i, h⟩) (strftimeYMD y m d)).graphics = 0 ∧
    (newLibraryRecord (st.wishlist.get ⟨i, h⟩) (strftimeYMD y m d)).sound = 0 ∧
    (newLibraryRecord (st.wishlist.get ⟨i, h⟩) (strftimeYMD y m d)).completeness = 0 ∧
    (newLibraryRecord (st.wishlist.get ⟨i, h⟩) (strftimeYMD y m d)).total = 0 ∧
    (move_wish_to_library st i h (strftimeYMD y m d)).wishlist =
      st.wishlist.eraseIdx i ∧
    (move_wish_to_library st i h (strftimeYMD y m d)).wishlist.length + 1 =
      st.wishlist.length ∧
    (∀ j, j < i →
      (move_wish_to_library st i h (strftimeYMD y m d)).wishlist[j]? =
        st.wishlist[j]?) ∧
    (∀ j, i ≤ j →
      (move_wish_to_library st i h (strftimeYMD y m d)).wishlist[j]? =
        st.wishlist[j + 1]?) ∧
    (move_wish_to_library st i h (strftimeYMD y m d)).wishlist.count
        (st.wishlist.get ⟨i, h⟩) + 1 =
      st.wishlist.count (st.wishlist.get ⟨i, h⟩) ∧
    (move_wish_to_library st i h (strftimeYMD y m d)).sortDescending =
      st.sortDescending := by
  refine ⟨rfl, ?_, ?_, ?_, rfl, rfl, rfl, strftime_canonical y m d, rfl, rfl,
          rfl, rfl, rfl, rfl, rfl, rfl, rfl, rfl, ?_, ?_, ?_, ?_, rfl⟩
  · show (st.evaluations ++ [_]).length = _
    simp
  · show (st.evaluations ++ [_]).take _ = _
    simp [List.take_left]
  · show _ ∈ st.evaluations ++ [_]
    simp
  · show (st.wishlist.eraseIdx i).length + 1 = _
    rw [List.length_eraseIdx_of_lt h]
    omega
  · intro j hj
    exact List.getElem?_eraseIdx_of_lt st.wishlist i j hj
  · intro j hj
    exact List.getElem?_eraseIdx_of_ge st.wishlist i j hj
  · exact count_eraseIdx_get st.wishlist i h

/-- C1 witness: the move applied to the concrete one-item wishlist on
2026/10/12. -/
theorem move_wish_to_library_witness :
    (move_wish_to_library exStateC1 0 exStateC1_lt
        (strftimeYMD 2026 10 12)).evaluations.length =
      exStateC1.evaluations.length + 1 ∧
    (move_wish_to_library exStateC1 0 exStateC1_lt
        (strftimeYMD 2026 10 12)).wishlist.length + 1 =
      exStateC1.wishlist.length ∧
    (newLibraryRecord (exStateC1.wishlist.get ⟨0, exStateC1_lt⟩)
        (strftimeYMD 2026 10 12)).status = "대기중".data :=
  ⟨(move_wish_to_library_spec exStateC1 0 exStateC1_lt 2026 10 12
      (by decide) (by decide) (by decide)).2.1,
   (move_wish_to_library_spec exStateC1 0 exStateC1_lt 2026 10 12
      (by decide) (by decide) (by decide)).2.2.2.2.2.2.2.2.2.2.2.2.2.2.2.2.2.2.1,
   (move_wish_to_library_spec exStateC1 0 exStateC1_lt 2026 10 12
      (by decide) (by decide) (by decide)).2.2.2.2.2.2.2.2.2.1⟩

/-- C8: `load_csv` on a nonexistent file returns an empty collection
and reports no error; on malformed content (pandas parse failure) it
reports a recoverable error (the `messagebox.showerror` flag) and
returns an empty collection; on success every field is the parsed text
with missing fields (`NaN`) resolved to the empty string by
`fillna("")`, rows and header preserved. -/
theorem load_csv_spec :
    load_csv .missing = (⟨[], []⟩, false) ∧
    load_csv .parseFailed = (⟨[], []⟩, true) ∧
    (∀ t : RawTable, load_csv (.parsed t) =
      (⟨t.header, t.rows.map (List.map (fun v => v.getD ""))⟩, false)) :=
  ⟨rfl, rfl, fun _ => rfl⟩

/-- C9: after a score edit the stored `총점` equals
`round(mean(stored sub-scores), 1)` — the code stores each rounded
slider value, sums exactly those stored values and divides by 6 — and
on the six sub-scores `[5,5,5,5,5,0]` the stored values are unchanged
and the computed total is `4.2 = 21/5` (mean `25/6 = 4.1666…` rounds
up to `4.2`). -/
theorem save_scores_spec (raw : List ℚ) (h : raw.length = 6) :
    (save_scores raw).2 =
      pyRound1 ((save_scores raw).1.sum / ((save_scores raw).1.length : ℚ)) ∧
    (save_scores [5, 5, 5, 5, 5, 0]).1 = [5, 5, 5, 5, 5, 0] ∧
    (save_scores [5, 5, 5, 5, 5, 0]).2 = 21 / 5 := by
  have h5 : pyRound1 5 = 5 := by rw [pyRound1, roundHalfEven]; norm_num
  have h0 : pyRound1 0 = 0 := by rw [pyRound1, roundHalfEven]; norm_num
  refine ⟨?_, ?_, ?_⟩
  · have hlen : (save_scores raw).1.length = 6 := by simp [save_scores, h]
    rw [hlen]
    norm_num [save_scores]
  · simp [save_scores, h5, h0]
  · have hsum : ((([5, 5, 5, 5, 5, 0] : List ℚ).map pyRound1).sum : ℚ) = 25 := by
      simp [h5, h0]
      norm_num
    show pyRound1 ((([5, 5, 5, 5, 5, 0] : List ℚ).map pyRound1).sum / 6) = 21 / 5
    rw [hsum, pyRound1, roundHalfEven]
    norm_num

/-- C9 witness: the theorem instantiated at the six sub-scores
`[5,5,5,5,5,0]`. -/
theorem save_scores_witness :
    (save_scores [5, 5, 5, 5, 5, 0]).2 = 21 / 5 :=
  (save_scores_spec [5, 5, 5, 5, 5, 0] rfl).2.2

/-- C10: the quick-log append with blank or whitespace-only text is a
no-op (an absent log file stays absent, an existing one is unchanged);
with non-blank text it appends exactly the single line
`[<timestamp>] <stripped text>` terminated by one newline (the count
conjunct: given the timestamp and the stripped text contain no newline,
the appended chunk contains exactly one). -/
theorem add_quick_log_spec (logFile : Option (List Char))
    (stamp text : List Char) :
    (strip text = [] → add_quick_log logFile stamp text = logFile) ∧
    (strip text ≠ [] →
      add_quick_log logFile stamp text =
        some (logFile.getD [] ++
          ('[' :: stamp ++ ']' :: ' ' :: strip text ++ ['\n']))) ∧
    ('\n' ∉ stamp → '\n' ∉ strip text →
      ('[' :: stamp ++ ']' :: ' ' :: strip text ++ ['\n']).count '\n' = 1) := by
  refine ⟨?_, ?_, ?_⟩
  · intro h
    simp [add_quick_log, h]
  · intro h
    simp [add_quick_log, h]
  · intro h1 h2
    simp [List.count_cons, List.count_append,
          List.count_eq_zero.mpr h1, List.count_eq_zero.mpr h2]

/-- C10 witness: a blank entry leaves an absent file absent; a real
entry appends its single stripped, timestamped line. -/
theorem add_quick_log_witness :
    add_quick_log none "2026-10-12 09:00".data "   ".data = none ∧
    add_quick_log (some "old\n".data) "T".data " hi ".data =
      some ("old\n".data ++ ('[' :: "T".data ++ ']' :: ' ' :: strip " hi ".data ++ ['\n'])) ∧
    ('[' :: "T".data ++ ']' :: ' ' :: strip " hi ".data ++ ['\n']).count '\n' = 1 :=
  ⟨(add_quick_log_spec none "2026-10-12 09:00".data "   ".data).1 (by decide),
   (add_quick_log_spec (some "old\n".data) "T".data " hi ".data).2.1 (by decide),
   (add_quick_log_spec (some "old\n".data) "T".data " hi ".data).2.2
     (by decide) (by decide)⟩

theorem strip_digits {s : List Char} (h : allDigits s = true) : strip s = s :=
  strip_eq_self fun c hc => not_ws_of_digit (allDigits_mem h c hc)

theorem no_dot_of_digits {s : List Char} (h : allDigits s = true) : '.' ∉ s :=
  fun hm => ne_dot_of_digit (allDigits_mem h _ hm) rfl

theorem no_slash_of_digits {s : List Char} (h : allDigits s = true) : '/' ∉ s :=
  fun hm => ne_slash_of_digit (allDigits_mem h _ hm) rfl

theorem replaceDotZero_of_digits {s : List Char} (h : allDigits s = true) :
    replaceDotZero s = s :=
  replaceDotZero_eq_self (hasDotZero_eq_false_of_no_dot (no_dot_of_digits h))

theorem to_display_of_slash {s : List Char}
    (hnws : ∀ c ∈ s, isWS c = false) (hnd : '.' ∉ s) (hs : '/' ∈ s) :
    DateFormatter.to_display_format s = s := by
  have hrep : replaceDotZero s = s :=
    replaceDotZero_eq_self (hasDotZero_eq_false_of_no_dot hnd)
  have hstrip : strip s = s := strip_eq_self hnws
  have hne : s ≠ [] := by rintro rfl; simp at hs
  simp only [DateFormatter.to_display_format, hrep, hstrip]
  rw [if_neg hne, if_pos hs]

theorem to_storage_of_slash {s : List Char}
    (hnws : ∀ c ∈ s, isWS c = false) (hs : '/' ∈ s) :
    DateFormatter.to_storage_format s = s := by
  have hstrip : strip s = s := strip_eq_self hnws
  have hne : s ≠ [] := by rintro rfl; simp at hs
  simp only [DateFormatter.to_storage_format, hstrip]
  rw [if_neg hne, if_pos hs]

theorem to_display_of_eight_digits {s : List Char} (hlen : s.length = 8)
    (hdig : allDigits s = true) :
    DateFormatter.to_display_format s = insertSlashes s := by
  have hstrip : strip s = s := strip_digits hdig
  have hne : s ≠ [] := by rintro rfl; simp at hlen
  simp only [DateFormatter.to_display_format, replaceDotZero_of_digits hdig, hstrip]
  rw [if_neg hne, if_neg (no_slash_of_digits hdig), if_pos ⟨hlen, hdig⟩]

theorem to_storage_of_eight_digits {s : List Char} (hlen : s.length = 8)
    (hdig : allDigits s = true) :
    DateFormatter.to_storage_format s = insertSlashes s := by
  have hstrip : strip s = s := strip_digits hdig
  have hne : s ≠ [] := by rintro rfl; simp at hlen
  simp only [DateFormatter.to_storage_format, hstrip]
  rw [if_neg hne, if_neg (no_slash_of_digits hdig), if_pos ⟨hlen, hdig⟩]

theorem slash_mem_insertSlashes (t : List Char) : '/' ∈ insertSlashes t := by
  simp [insertSlashes]

theorem insertSlashes_no_ws {s : List Char} (hdig : allDigits s = true) :
    ∀ c ∈ insertSlashes s, isWS c = false := by
  intro c hc
  rcases mem_insertSlashes hc with h | rfl
  · exact not_ws_of_digit (allDigits_mem hdig c h)
  · decide

theorem insertSlashes_no_dot {s : List Char} (hdig : allDigits s = true) :
    '.' ∉ insertSlashes s := by
  intro hc
  rcases mem_insertSlashes hc with h | h
  · exact no_dot_of_digits hdig h
  · exact absurd h (by decide)

/-- C3 counterexample: the code replaces EVERY occurrence of `".0"`,
not only a trailing one.  On `"1.02"` (no trailing `.0`, not 8 digits,
no `/`) the spec's rule set returns the input unchanged, but the code
collapses the interior `".0"` and returns `"12"`. -/
theorem to_display_format_ne_spec :
    DateFormatter.to_display_format "1.02".data = "12".data ∧
    DateFormatter.spec_to_display "1.02".data = "1.02".data ∧
    DateFormatter.to_display_format "1.02".data ≠
      DateFormatter.spec_to_display "1.02".data := by decide

/-- C3 (amended): `to_display_format` is total and behaves as: remove
every occurrence of the substring `".0"` (left to right), then trim
whitespace; if the result contains `/` return it; if it is exactly 8
digits insert separators as `YYYY/MM/DD`; otherwise return that
stripped-and-trimmed result (not the merely-trimmed original input). -/
theorem to_display_format_cases (s : List Char) :
    ('/' ∈ strip (replaceDotZero s) →
      DateFormatter.to_display_format s = strip (replaceDotZero s)) ∧
    ('/' ∉ strip (replaceDotZero s) →
      (strip (replaceDotZero s)).length = 8 →
      allDigits (strip (replaceDotZero s)) = true →
      DateFormatter.to_display_format s =
        insertSlashes (strip (replaceDotZero s))) ∧
    ('/' ∉ strip (replaceDotZero s) →
      ¬((strip (replaceDotZero s)).length = 8 ∧
        allDigits (strip (replaceDotZero s)) = true) →
      DateFormatter.to_display_format s = strip (replaceDotZero s)) := by
  by_cases hnil : strip s = []
  · have hws := all_ws_of_strip_eq_nil hnil
    have hdot : '.' ∉ s := fun hm => absurd (hws '.' hm) (by decide)
    have hrep : replaceDotZero s = s :=
      replaceDotZero_eq_self (hasDotZero_eq_false_of_no_dot hdot)
    rw [hrep, hnil]
    refine ⟨fun h => absurd h (by simp), fun _ h => absurd h (by simp), fun _ _ => ?_⟩
    simp only [DateFormatter.to_display_format, if_pos hnil]
  · refine ⟨fun h => ?_, fun h1 h2 h3 => ?_, fun h1 h2 => ?_⟩ <;>
      simp only [DateFormatter.to_display_format, if_neg hnil]
    · rw [if_pos h]
    · rw [if_neg h1, if_pos ⟨h2, h3⟩]
    · rw [if_neg h1, if_neg h2]

/-- C3 witness: the legacy input `"20230912.0"` lands in the 8-digit
branch after the `".0"` removal and is reformatted with separators. -/
theorem to_display_format_cases_witness :
    DateFormatter.to_display_format "20230912.0".data =
      insertSlashes (strip (replaceDotZero "20230912.0".data)) :=
  (to_display_format_cases "20230912.0".data).2.1 (by decide) (by decide)
    (by decide)

/-- C4 counterexample: the two conversion functions are NOT
extensionally equal — `to_storage_format` has no `".0"` removal, so on
the legacy float-polluted value `"20230912.0"` it passes the input
through while `to_display_format` normalizes it to `"2023/09/12"`. -/
theorem to_storage_format_ne_to_display_format :
    DateFormatter.to_storage_format "20230912.0".data = "20230912.0".data ∧
    DateFormatter.to_display_format "20230912.0".data = "2023/09/12".data ∧
    DateFormatter.to_storage_format "20230912.0".data ≠
      DateFormatter.to_display_format "20230912.0".data := by decide

/-- C4 (amended): `to_storage_format` applies the identical rule set
except for the `".0"` removal, so the two functions agree exactly on
every input in which the substring `".0"` does not occur. -/
theorem to_storage_eq_to_display {s : List Char} (h : hasDotZero s = false) :
    DateFormatter.to_storage_format s = DateFormatter.to_display_format s := by
  unfold DateFormatter.to_storage_format DateFormatter.to_display_format
  rw [replaceDotZero_eq_self h]

/-- C4 witness: the two functions agree on the canonical value
`"2023/09/12"`. -/
theorem to_storage_eq_to_display_witness :
    DateFormatter.to_storage_format "2023/09/12".data =
      DateFormatter.to_display_format "2023/09/12".data :=
  to_storage_eq_to_display (by decide)

/-- The legacy compact date forms: `YYYYMMDD`, or `YYYYMMDD.0` left by
a prior numeric (float) coercion. -/
def isLegacyCompact (s : List Char) : Prop :=
  (s.length = 8 ∧ allDigits s = true) ∨
  (∃ t, s = t ++ ['.', '0'] ∧ t.length = 8 ∧ allDigits t = true)

/-- C5: `to_display ∘ to_storage` agrees with `to_display` on every
legacy (`YYYYMMDD` or `YYYYMMDD.0`) and canonical (`YYYY/MM/DD`)
input: on 8 digits `to_storage` already inserts the separators and
`to_display` then passes the separated form through; on `YYYYMMDD.0`
`to_storage` is the identity; on canonical input both are the
identity. -/
theorem to_display_to_storage_agree (s : List Char)
    (h : isLegacyCompact s ∨ isCanonicalYMD s) :
    DateFormatter.to_display_format (DateFormatter.to_storage_format s) =
      DateFormatter.to_display_format s := by
  rcases h with (⟨hlen, hdig⟩ | ⟨t, rfl, hlen, hdig⟩) | ⟨y, m, d, rfl, hy4, hyd, hm2, hmd, hd2, hdd⟩
  · rw [to_storage_of_eight_digits hlen hdig,
        to_display_of_eight_digits hlen hdig,
        to_display_of_slash (insertSlashes_no_ws hdig)
          (insertSlashes_no_dot hdig) (slash_mem_insertSlashes s)]
  · have hmem : ∀ c ∈ t ++ ['.', '0'], isWS c = false := by
      intro c hc
      rcases List.mem_append.mp hc with h | h
      · exact not_ws_of_digit (allDigits_mem hdig c h)
      · cases h with
        | head => decide
        | tail _ h2 =>
          cases h2 with
          | head => decide
          | tail _ h3 => cases h3
    have hne : t ++ ['.', '0'] ≠ [] := by simp
    have hns : '/' ∉ t ++ ['.', '0'] := by
      intro hc
      rcases List.mem_append.mp hc with h | h
      · exact no_slash_of_digits hdig h
      · exact absurd h (by decide)
    have hlen10 : (t ++ ['.', '0']).length = 10 := by simp [hlen]
    have hpass : DateFormatter.to_storage_format (t ++ ['.', '0']) =
        t ++ ['.', '0'] := by
      simp only [DateFormatter.to_storage_format, strip_eq_self hmem]
      rw [if_neg hne, if_neg hns, if_neg (by rw [hlen10]; simp)]
    rw [hpass]
  · have hmem : ∀ c ∈ y ++ '/' :: m ++ '/' :: d, isWS c = false := by
      intro c hc
      rcases List.mem_append.mp hc with h | h
      · rcases List.mem_append.mp h with h1 | h1
        · exact not_ws_of_digit (allDigits_mem hyd c h1)
        · cases h1 with
          | head => decide
          | tail _ h2 => exact not_ws_of_digit (allDigits_mem hmd c h2)
      · cases h with
        | head => decide
        | tail _ h2 => exact not_ws_of_digit (allDigits_mem hdd c h2)
    have hs : '/' ∈ y ++ '/' :: m ++ '/' :: d := by simp
    rw [to_storage_of_slash hmem hs]

/-- C5 witness: the three forms at concrete inputs `"20230912"`,
`"20230912.0"` and `"2023/09/12"`. -/
theorem to_display_to_storage_agree_witness :
    DateFormatter.to_display_format
        (DateFormatter.to_storage_format "20230912".data) =
      DateFormatter.to_display_format "20230912".data ∧
    DateFormatter.to_display_format
        (DateFormatter.to_storage_format "20230912.0".data) =
      DateFormatter.to_display_format "20230912.0".data ∧
    DateFormatter.to_display_format
        (DateFormatter.to_storage_format "2023/09/12".data) =
      DateFormatter.to_display_format "2023/09/12".data :=
  ⟨to_display_to_storage_agree "20230912".data (Or.inl (Or.inl (by decide))),
   to_display_to_storage_agree "20230912.0".data
     (Or.inl (Or.inr ⟨"20230912".data, by decide, by decide, by decide⟩)),
   to_display_to_storage_agree "2023/09/12".data
     (Or.inr ⟨"2023".data, "09".data, "12".data, by decide, by decide,
       by decide, by decide, by decide, by decide, by decide⟩)⟩

theorem splitOnChar_triple {Y M D : List Char}
    (hY : '/' ∉ Y) (hM : '/' ∉ M) (hD : '/' ∉ D) :
    splitOnChar '/' (Y ++ '/' :: M ++ '/' :: D) = [Y, M, D] := by
  rw [List.append_assoc, List.cons_append,
      splitOnChar_append hY (M ++ '/' :: D),
      splitOnChar_append hM D, splitOnChar_no_sep hD]

theorem triple_no_ws {Y M D : List Char}
    (hY : allDigits Y = true) (hM : allDigits M = true)
    (hD : allDigits D = true) :
    ∀ c ∈ Y ++ '/' :: M ++ '/' :: D, isWS c = false := by
  intro c hc
  rcases List.mem_append.mp hc with h | h
  · rcases List.mem_append.mp h with h1 | h1
    · exact not_ws_of_digit (allDigits_mem hY c h1)
    · cases h1 with
      | head => decide
      | tail _ h2 => exact not_ws_of_digit (allDigits_mem hM c h2)
  · cases h with
    | head => decide
    | tail _ h2 => exact not_ws_of_digit (allDigits_mem hD c h2)

theorem triple_no_dot {Y M D : List Char}
    (hY : allDigits Y = true) (hM : allDigits M = true)
    (hD : allDigits D = true) :
    '.' ∉ Y ++ '/' :: M ++ '/' :: D := by
  intro hc
  rcases List.mem_append.mp hc with h | h
  · rcases List.mem_append.mp h with h1 | h1
    · exact no_dot_of_digits hY h1
    · cases h1 with
      | tail _ h2 => exact no_dot_of_digits hM h2
  · cases h with
    | tail _ h2 => exact no_dot_of_digits hD h2

theorem split_of_triple {Y M D : List Char}
    (hY : allDigits Y = true) (hM : allDigits M = true)
    (hD : allDigits D = true) (hYne : Y ≠ []) :
    DateFormatter.split_to_fields (Y ++ '/' :: M ++ '/' :: D) =
      (Y, if M = ['0', '0'] then [] else M,
          if D = ['0', '0'] then [] else D) := by
  have hmem := triple_no_ws hY hM hD
  have hslash : '/' ∈ Y ++ '/' :: M ++ '/' :: D := by simp
  have hne : Y ++ '/' :: M ++ '/' :: D ≠ [] := by simp
  have hstrip : strip (Y ++ '/' :: M ++ '/' :: D) = Y ++ '/' :: M ++ '/' :: D :=
    strip_eq_self hmem
  have hdisp := to_display_of_slash hmem (triple_no_dot hY hM hD) hslash
  simp only [DateFormatter.split_to_fields, hstrip, hdisp]
  rw [if_neg hne, if_pos hslash,
      splitOnChar_triple (no_slash_of_digits hY) (no_slash_of_digits hM)
        (no_slash_of_digits hD)]

theorem month_roundtrip (x : List Char) (hx2 : x.length ≤ 2) :
    (if (if (if x = [] then ['0', '0'] else x) ≠ ['0', '0'] ∧
            (if x = [] then ['0', '0'] else x).length = 1
         then '0' :: (if x = [] then ['0', '0'] else x)
         else (if x = [] then ['0', '0'] else x)) = ['0', '0']
     then []
     else (if (if x = [] then ['0', '0'] else x) ≠ ['0', '0'] ∧
              (if x = [] then ['0', '0'] else x).length = 1
           then '0' :: (if x = [] then ['0', '0'] else x)
           else (if x = [] then ['0', '0'] else x))) =
    (if x = [] ∨ x = ['0'] ∨ x = ['0', '0'] then []
     else if x.length = 1 then '0' :: x else x) := by
  rcases x with _ | ⟨c, _ | ⟨c2, _ | ⟨c3, rest⟩⟩⟩
  · decide
  · by_cases hc : c = '0'
    · subst hc; decide
    · simp [hc]
  · by_cases h00 : ([c, c2] : List Char) = ['0', '0']
    · rw [h00]; decide
    · simp [h00]
  · exfalso
    simp only [List.length_cons] at hx2
    omega

/-- C6 counterexample: the all-blank round trip is NOT `("", "", "")` —
`parse_from_fields("", "", "")` stores `"0000/00/00"` and
`split_to_fields` maps only the month/day `"00"` components back to
blank, so the blank YEAR round-trips to `"0000"`, not to the empty
string. -/
theorem split_parse_blank :
    DateFormatter.split_to_fields (DateFormatter.parse_from_fields [] [] []) =
      ("0000".data, [], []) ∧ ("0000".data : List Char) ≠ [] := by decide

/-- C6 (amended): for digit-only field strings (month and day of at
most two digits), `split_to_fields (parse_from_fields y m d)`
reproduces the fields up to zero-padding and the `"00"`/empty
convention, EXCEPT that a blank year comes back as `"0000"` (only
month/day get the `"00" ↦ empty` treatment): the year returns as given
(or `"0000"` when blank), and a month/day returns empty when it was
blank, `"0"` or `"00"`, zero-padded when a single digit, and unchanged
when two digits. -/
theorem split_parse_roundtrip (y m d : List Char)
    (hy : allDigits y = true) (hm : allDigits m = true)
    (hd : allDigits d = true) (hm2 : m.length ≤ 2) (hd2 : d.length ≤ 2) :
    DateFormatter.split_to_fields (DateFormatter.parse_from_fields y m d) =
      (if y = [] then ['0', '0', '0', '0'] else y,
       if m = [] ∨ m = ['0'] ∨ m = ['0', '0'] then []
         else if m.length = 1 then '0' :: m else m,
       if d = [] ∨ d = ['0'] ∨ d = ['0', '0'] then []
         else if d.length = 1 then '0' :: d else d) := by
  have hsy := strip_digits hy
  have hsm := strip_digits hm
  have hsd := strip_digits hd
  simp only [DateFormatter.parse_from_fields, hsy, hsm, hsd]
  have hY : allDigits (if y = [] then ['0', '0', '0', '0'] else y) = true := by
    by_cases h0 : y = []
    · rw [if_pos h0]; decide
    · rw [if_neg h0]; exact hy
  have hYne : (if y = [] then ['0', '0', '0', '0'] else y) ≠ [] := by
    by_cases h0 : y = []
    · rw [if_pos h0]; decide
    · rw [if_neg h0]; exact h0
  have hM0 : allDigits (if m = [] then ['0', '0'] else m) = true := by
    by_cases h0 : m = []
    · rw [if_pos h0]; decide
    · rw [if_neg h0]; exact hm
  have hD0 : allDigits (if d = [] then ['0', '0'] else d) = true := by
    by_cases h0 : d = []
    · rw [if_pos h0]; decide
    · rw [if_neg h0]; exact hd
  have hM : allDigits (if (if m = [] then ['0', '0'] else m) ≠ ['0', '0'] ∧
      (if m = [] then ['0', '0'] else m).length = 1
      then '0' :: (if m = [] then ['0', '0'] else m)
      else (if m = [] then ['0', '0'] else m)) = true := by
    by_cases hc : (if m = [] then ['0', '0'] else m) ≠ ['0', '0'] ∧
        (if m = [] then ['0', '0'] else m).length = 1
    · rw [if_pos hc]
      simp only [allDigits, List.all_cons, Bool.and_eq_true]
      exact ⟨by decide, hM0⟩
    · rw [if_neg hc]
      exact hM0
  have hD : allDigits (if (if d = [] then ['0', '0'] else d) ≠ ['0', '0'] ∧
      (if d = [] then ['0', '0'] else d).length = 1
      then '0' :: (if d = [] then ['0', '0'] else d)
      else (if d = [] then ['0', '0'] else d)) = true := by
    by_cases hc : (if d = [] then ['0', '0'] else d) ≠ ['0', '0'] ∧
        (if d = [] then ['0', '0'] else d).length = 1
    · rw [if_pos hc]
      simp only [allDigits, List.all_cons, Bool.and_eq_true]
      exact ⟨by decide, hD0⟩
    · rw [if_neg hc]
      exact hD0
  rw [split_of_triple hY hM hD hYne, month_roundtrip m hm2, month_roundtrip d hd2]

/-- C6 witness: year `"2023"`, single-digit month `"7"`, day `"00"`
round-trip to `("2023", "07", "")`. -/
theorem split_parse_roundtrip_witness :
    DateFormatter.split_to_fields
        (DateFormatter.parse_from_fields "2023".data "7".data "00".data) =
      ("2023".data, "07".data, []) :=
  (split_parse_roundtrip "2023".data "7".data "00".data (by decide) (by decide)
    (by decide) (by decide) (by decide)).trans (by decide)
